import Mathlib

/-!
Shallow embedding of `mmdeploy/core/rewriters/symbolic_register.py`.

The module keeps a registry (`SYMBOLIC_REGISTER`) mapping module names of the
form `func_name@backend@str(is_pytorch)` to dynamically created subclasses of
`SymbolicWrapper`.  `set_symbolic` first selects, for each function name, the
winning registration for a requested backend (`valid_symbolic_dict`), then
applies each winner: pytorch-builtin symbolics go through
`torch.onnx.symbolic_registry.register_op`, others are monkey-patched onto the
`symbolic` attribute of the imported `torch.autograd.Function` subclass, with
failures logged and skipped.

Python strings are Lean `String`s, Python's `s.split('@')` is modelled
character by character, dicts are insertion-ordered association lists (as in
CPython), and the side effects of the build phase (calls to `register_op`,
attribute assignments, warnings) are reified as a list of `BuildAction`s.
The external world (`eval_with_import`, `issubclass(_, Function)`,
`getattr(cls, 'symbolic', None)`) is an explicit environment `PatchEnv`;
imported classes and underlying symbolic functions are identified by `Nat`
tags, since only their identity matters here.
-/

/-! ### Python primitives: `str.split('@')`, `'@'.join`, `str(bool)`, dicts -/

/-- Model of Python `s.split('@')` on a list of characters: splits at every
`'@'`, keeping empty parts, so the result has (number of `'@'`s + 1) parts. -/
def splitAtSign : List Char → List (List Char)
  | [] => [[]]
  | c :: rest =>
    let r := splitAtSign rest
    if c = '@' then [] :: r
    else
      match r with
      | [] => [[c]]
      | p :: ps => (c :: p) :: ps

/-- Model of `func_name, symbolic_backend, is_pytorch = module_name.split('@')`:
the unpacking succeeds only when the split has exactly three parts, otherwise
Python raises `ValueError` (modelled as `none`). -/
def splitModuleName (s : String) : Option (String × String × String) :=
  match (splitAtSign s.data).map String.mk with
  | [a, b, c] => some (a, b, c)
  | _ => none

/-- Model of Python `str(b)` for a `bool`: `"True"` or `"False"`. -/
def pyBoolStr (b : Bool) : String :=
  if b then "True" else "False"

/-- Lookup in an insertion-ordered association list (Python dict `d[k]`,
`none` when the key is absent). -/
def dictLookup {α : Type} (d : List (String × α)) (k : String) : Option α :=
  match d with
  | [] => none
  | (k', v) :: rest => if k' = k then some v else dictLookup rest k

/-- Python `k in d` on a dict. -/
def dictContains {α : Type} (d : List (String × α)) (k : String) : Bool :=
  d.any (fun p => p.1 = k)

/-- Python dict assignment `d[k] = v`: updates the value in place when the key
exists (keeping its position, as CPython dicts do), otherwise appends. -/
def dictInsert {α : Type} (d : List (String × α)) (k : String) (v : α) :
    List (String × α) :=
  match d with
  | [] => [(k, v)]
  | (k', v') :: rest =>
    if k' = k then (k', v) :: rest else (k', v') :: dictInsert rest k v

/-! ### The data model of the registry -/

/-- A dynamically created subclass of `SymbolicWrapper` as stored in the
registry.  The class attributes mirror `SymbolicWrapper`'s defaults
(`func_name = ''`, `backend = ''`, `is_pytorch = False`, `symbolic = None`,
`arg_descriptors = None`); `register_symbolic` overrides `func_name`,
`backend`, `symbolic` and `arg_descriptors` (but not `is_pytorch`).  The
underlying symbolic function is identified by a `Nat` tag. -/
structure SymbolicWrapperClass where
  func_name : String := ""
  backend : String := ""
  is_pytorch : Bool := false
  symbolic : Option Nat := none
  arg_descriptors : Option (List String) := none
deriving Repr, DecidableEq

/-- One entry of `Registry.module_dict`: the module name
(`func_name@backend@str(is_pytorch)`) paired with the wrapper class. -/
abbrev RegEntry : Type := String × SymbolicWrapperClass

/-- `valid_symbolic_dict`: maps a function name to the chosen wrapper class
together with the decoded `is_pytorch == 'True'` flag. -/
abbrev ValidDict : Type := List (String × (SymbolicWrapperClass × Bool))

/-- The instance `symbolic_impl(cfg=cfg, **kwargs)` after the optional
`parse_args(*arg_descriptors)` wrapping.  `parsedArgs` records the descriptors
when `parse_args` was applied; `origin_func` is set (to the previous value of
the patched class's `symbolic` attribute, possibly `none`) just before the
monkey-patch on the non-pytorch path. -/
structure WrappedSymbolic where
  symbolic : Option Nat
  cfg : Nat
  parsedArgs : Option (List String) := none
  origin_func : Option (Option Nat) := none
deriving Repr, DecidableEq

/-- The external world seen by the build phase: `eval_with_import` resolves a
dotted name to a class (tagged by `Nat`) or fails; `isAutogradFunction cls`
models `issubclass(cls, torch.autograd.Function)`; `symbolicAttr cls` models
`getattr(cls, 'symbolic', None)`, a `Nat` tag of the pre-existing hook. -/
structure PatchEnv where
  eval_with_import : String → Option Nat
  isAutogradFunction : Nat → Bool
  symbolicAttr : Nat → Option Nat

/-- An observable side effect of the build phase of `set_symbolic`. -/
inductive BuildAction where
  | registerOp (func_name : String) (impl : WrappedSymbolic)
      (domain : String) (opset : Nat)
  | patchClass (func_name : String) (cls : Nat) (impl : WrappedSymbolic)
  | warn (msg : String)
deriving Repr, DecidableEq

/-! ### Phase 1 of `set_symbolic`: find valid symbolic -/

/-- One iteration of the `for module_name, symbolic_impl in
registry.module_dict.items()` loop: split the name, and admit the entry when
`symbolic_backend == backend or (symbolic_backend == 'default' and func_name
not in valid_symbolic_dict)`.  A name that does not split into exactly three
parts raises `ValueError`, which `set_symbolic` does not catch. -/
def findValidStep (backend : String) (acc : ValidDict) (e : RegEntry) :
    Except String ValidDict :=
  match splitModuleName e.1 with
  | none => .error "ValueError: module name does not unpack into three parts"
  | some (func_name, symbolic_backend, is_pytorch) =>
    if symbolic_backend = backend ∨
        (symbolic_backend = "default" ∧ ¬ dictContains acc func_name = true) then
      .ok (dictInsert acc func_name (e.2, is_pytorch = "True"))
    else
      .ok acc

/-- The whole `find valid symbolic` loop of `set_symbolic`, producing
`valid_symbolic_dict` from the registry's `module_dict`. -/
def findValidSymbolic (module_dict : List RegEntry) (backend : String) :
    Except String ValidDict :=
  module_dict.foldlM (findValidStep backend) []

/-! ### Phase 2 of `set_symbolic`: build symbolic -/

/-- The value bound to `symbolic_impl` after `symbolic_impl =
symbolic_impl(cfg=cfg, **kwargs)` and the conditional
`parse_args(*arg_descriptors)` wrapping (applied iff `arg_descriptors is not
None and len(arg_descriptors) > 0`). -/
def instantiateImpl (c : SymbolicWrapperClass) (cfg : Nat) : WrappedSymbolic :=
  let base : WrappedSymbolic := { symbolic := c.symbolic, cfg := cfg }
  match c.arg_descriptors with
  | some ds => if 0 < ds.length then { base with parsedArgs := some ds } else base
  | none => base

/-- The body of the `try:` block on the non-pytorch path: import `func_name`,
assert it is a `torch.autograd.Function` subclass, save the previous
`symbolic` attribute into `origin_func`, and assign the new implementation.
Failures are surfaced as `Except.error` (the raised exception's message). -/
def patchNonPytorch (env : PatchEnv) (func_name : String)
    (impl : WrappedSymbolic) : Except String BuildAction :=
  match env.eval_with_import func_name with
  | none => .error ("ImportError: cannot import " ++ func_name)
  | some cls =>
    if env.isAutogradFunction cls then
      .ok (.patchClass func_name cls
        { impl with origin_func := some (env.symbolicAttr cls) })
    else
      .error (func_name ++ " is not an torch.autograd.Function")

/-- One iteration of the `build symbolic` loop: instantiate and wrap the
implementation, then either call `register_op(func_name, symbolic_impl, '',
opset)` (pytorch path) or monkey-patch the imported class, logging a warning
and skipping on any exception (`except Exception: logging.warning(...)`). -/
def buildSymbolicOne (env : PatchEnv) (cfg opset : Nat)
    (entry : String × (SymbolicWrapperClass × Bool)) : BuildAction :=
  let func_name := entry.1
  let symbolic_impl := instantiateImpl entry.2.1 cfg
  let is_pytorch := entry.2.2
  if is_pytorch then
    .registerOp func_name symbolic_impl "" opset
  else
    match patchNonPytorch env func_name symbolic_impl with
    | .ok a => a
    | .error _ => .warn ("Can not add symbolic for `" ++ func_name ++ "`")

/-- `set_symbolic(cfg, registry, backend='default', opset=11)`: the build
function of `SYMBOLIC_REGISTER`.  Returns the list of observable actions in
the order the build loop performs them; an uncaught `ValueError` from the
selection loop propagates as `Except.error`. -/
def set_symbolic (env : PatchEnv) (cfg : Nat) (module_dict : List RegEntry)
    (backend : String := "default") (opset : Nat := 11) :
    Except String (List BuildAction) := do
  let valid_symbolic_dict ← findValidSymbolic module_dict backend
  return valid_symbolic_dict.map (buildSymbolicOne env cfg opset)

/-! ### The registry object, decorator and `register_extra_symbolics` -/

/-- An `mmcv.utils.Registry` whose build function is `set_symbolic`: its
mutable state is `module_dict`; `build(...)` forwards to the build function
with `registry=self`. -/
structure Registry where
  name : String
  module_dict : List RegEntry

/-- `Registry.build(cfg=cfg, backend=backend, opset=opset)` for a registry
created with `build_func=set_symbolic`: calls
`set_symbolic(cfg, registry=self, backend=backend, opset=opset)`. -/
def Registry.build (r : Registry) (env : PatchEnv) (cfg : Nat)
    (backend : String) (opset : Nat) : Except String (List BuildAction) :=
  set_symbolic env cfg r.module_dict backend opset

/-- `SYMBOLIC_REGISTER = Registry('symbolics', build_func=set_symbolic,
scope=None)`, with its accumulated registrations made explicit. -/
def SYMBOLIC_REGISTER (module_dict : List RegEntry) : Registry :=
  { name := "symbolics", module_dict := module_dict }

/-- `register_symbolic(func_name, backend='default', is_pytorch=False,
arg_descriptors=None)(symbolic_impl)`: builds the wrapper class, registers it
under `'@'.join([func_name, backend, str(is_pytorch)])`, and returns
`symbolic_impl` unchanged.  `mmcv`'s `Registry.register_module` raises
`KeyError` when the name is already registered (its `force` flag defaults to
`False`); the underlying implementation is identified by the tag
`symbolic_impl`. -/
def register_symbolic (module_dict : List RegEntry) (func_name : String)
    (backend : String := "default") (is_pytorch : Bool := false)
    (arg_descriptors : Option (List String) := none) (symbolic_impl : Nat) :
    Except String (Nat × List RegEntry) :=
  let wrapper_name := String.intercalate "@" [func_name, backend, pyBoolStr is_pytorch]
  let wrapper : SymbolicWrapperClass :=
    { func_name := func_name, backend := backend, symbolic := some symbolic_impl,
      arg_descriptors := arg_descriptors }
  if dictContains module_dict wrapper_name then
    .error ("KeyError: " ++ wrapper_name ++ " is already registered in symbolics")
  else
    .ok (symbolic_impl, module_dict ++ [(wrapper_name, wrapper)])

/-- `register_extra_symbolics(cfg, backend='default', opset=11)`: calls
`SYMBOLIC_REGISTER.build(cfg=cfg, backend=backend, opset=opset)`. -/
def register_extra_symbolics (env : PatchEnv) (module_dict : List RegEntry)
    (cfg : Nat) (backend : String := "default") (opset : Nat := 11) :
    Except String (List BuildAction) :=
  (SYMBOLIC_REGISTER module_dict).build env cfg backend opset

/-! ### Selection helpers and lemmas for the `find valid symbolic` loop -/

/-- Pure version of `findValidStep`: identical on names that split into three
parts (a malformed name, which would raise, is skipped). -/
def stepValid (backend : String) (acc : ValidDict) (e : RegEntry) : ValidDict :=
  match splitModuleName e.1 with
  | none => acc
  | some (func_name, symbolic_backend, is_pytorch) =>
    if symbolic_backend = backend ∨
        (symbolic_backend = "default" ∧ ¬ dictContains acc func_name = true) then
      dictInsert acc func_name (e.2, is_pytorch = "True")
    else
      acc

/-- Does the registry entry register function name `f` for exactly the
requested `backend`? -/
def matchesFor (backend f : String) (e : RegEntry) : Bool :=
  match splitModuleName e.1 with
  | some (fn, sb, _) => decide (fn = f ∧ sb = backend)
  | none => false

/-- Does the registry entry register function name `f` for `'default'`? -/
def defaultFor (f : String) (e : RegEntry) : Bool :=
  match splitModuleName e.1 with
  | some (fn, sb, _) => decide (fn = f ∧ sb = "default")
  | none => false

/-- The decoded `is_pytorch == 'True'` flag of a registry entry. -/
def pyFlagOf (e : RegEntry) : Bool :=
  match splitModuleName e.1 with
  | some (_, _, py) => decide (py = "True")
  | none => false

/-- The value the selection loop stores for a chosen registry entry. -/
def selectedVal (e : RegEntry) : SymbolicWrapperClass × Bool :=
  (e.2, pyFlagOf e)

/-- The most recently registered entry matching the requested backend for `f`. -/
def lastMatch (backend f : String) : List RegEntry → Option RegEntry
  | [] => none
  | e :: rest =>
    match lastMatch backend f rest with
    | some e' => some e'
    | none => if matchesFor backend f e then some e else none

/-- The earliest registered `'default'` entry for `f`. -/
def firstDefault (f : String) : List RegEntry → Option RegEntry
  | [] => none
  | e :: rest => if defaultFor f e then some e else firstDefault f rest

/-- What the selection loop ends up storing for `f`, given a fallback value
already present when the loop reaches `l`. -/
def selectFor (backend f : String) (l : List RegEntry)
    (fb : Option (SymbolicWrapperClass × Bool)) :
    Option (SymbolicWrapperClass × Bool) :=
  match lastMatch backend f l with
  | some e => some (selectedVal e)
  | none =>
    match fb with
    | some v => some v
    | none => (firstDefault f l).map selectedVal

theorem dictLookup_dictInsert_self {α : Type} (d : List (String × α)) (k : String)
    (v : α) : dictLookup (dictInsert d k v) k = some v := by
  induction d with
  | nil => simp [dictInsert, dictLookup]
  | cons p rest ih =>
    by_cases h : p.1 = k
    · simp [dictInsert, dictLookup, h]
    · simp [dictInsert, dictLookup, h, ih]

theorem dictLookup_dictInsert_ne {α : Type} (d : List (String × α)) (k f : String)
    (v : α) (h : k ≠ f) : dictLookup (dictInsert d k v) f = dictLookup d f := by
  induction d with
  | nil => simp [dictInsert, dictLookup, h]
  | cons p rest ih =>
    by_cases hp : p.1 = k
    · subst hp
      simp [dictInsert, dictLookup, h, ih]
    · simp [dictInsert, dictLookup, hp, ih]

theorem dictContains_eq_isSome {α : Type} (d : List (String × α)) (k : String) :
    dictContains d k = (dictLookup d k).isSome := by
  induction d with
  | nil => simp [dictContains, dictLookup]
  | cons p rest ih =>
    by_cases hp : p.1 = k
    · simp [dictContains, dictLookup, hp]
    · simp [dictContains, dictLookup, hp, ← ih, List.any_cons]

theorem foldlM_findValidStep_ok (backend : String) :
    ∀ (l : List RegEntry) (acc d : ValidDict),
    l.foldlM (findValidStep backend) acc = .ok d →
    l.foldl (stepValid backend) acc = d := by
  intro l
  induction l with
  | nil =>
    intro acc d h
    simpa [List.foldlM, pure, Except.pure] using h
  | cons e rest ih =>
    intro acc d h
    rw [List.foldlM_cons] at h
    rw [List.foldl_cons]
    cases hsplit : splitModuleName e.1 with
    | none =>
      rw [findValidStep, hsplit] at h
      simp [bind, Except.bind] at h
    | some t =>
      obtain ⟨fn, sb, py⟩ := t
      rw [findValidStep, hsplit] at h
      simp only [bind] at h
      by_cases hcond : sb = backend ∨ (sb = "default" ∧ ¬ dictContains acc fn = true)
      · rw [if_pos hcond] at h
        simp only [stepValid, hsplit, if_pos hcond]
        simp only [Except.bind] at h
        exact ih _ _ h
      · rw [if_neg hcond] at h
        simp only [stepValid, hsplit, if_neg hcond]
        simp only [Except.bind] at h
        exact ih _ _ h

/-- When the selection loop finishes without raising, it computes the pure
fold of `stepValid`. -/
theorem findValidSymbolic_ok (l : List RegEntry) (backend : String)
    (d : ValidDict) (h : findValidSymbolic l backend = .ok d) :
    l.foldl (stepValid backend) [] = d :=
  foldlM_findValidStep_ok backend l [] d h

theorem lastMatch_cons_some (backend f : String) (e e' : RegEntry)
    (rest : List RegEntry) (h : lastMatch backend f rest = some e') :
    lastMatch backend f (e :: rest) = some e' := by
  simp [lastMatch, h]

theorem lastMatch_cons_none (backend f : String) (e : RegEntry)
    (rest : List RegEntry) (h : lastMatch backend f rest = none) :
    lastMatch backend f (e :: rest) =
      (if matchesFor backend f e then some e else none) := by
  simp [lastMatch, h]

theorem lastMatch_cons_not_match (backend f : String) (e : RegEntry)
    (rest : List RegEntry) (hm : matchesFor backend f e = false) :
    lastMatch backend f (e :: rest) = lastMatch backend f rest := by
  cases h : lastMatch backend f rest <;> simp [lastMatch, h, hm]

theorem firstDefault_cons_default (f : String) (e : RegEntry)
    (rest : List RegEntry) (hd : defaultFor f e = true) :
    firstDefault f (e :: rest) = some e := by
  simp [firstDefault, hd]

theorem firstDefault_cons_not_default (f : String) (e : RegEntry)
    (rest : List RegEntry) (hd : defaultFor f e = false) :
    firstDefault f (e :: rest) = firstDefault f rest := by
  simp [firstDefault, hd]

theorem selectFor_of_lastMatch_some (backend f : String) (l : List RegEntry)
    (fb : Option (SymbolicWrapperClass × Bool)) (e : RegEntry)
    (h : lastMatch backend f l = some e) :
    selectFor backend f l fb = some (selectedVal e) := by
  rw [selectFor.eq_def, h]

theorem selectFor_of_lastMatch_none_fb (backend f : String) (l : List RegEntry)
    (v : SymbolicWrapperClass × Bool) (h : lastMatch backend f l = none) :
    selectFor backend f l (some v) = some v := by
  rw [selectFor.eq_def, h]

theorem selectFor_of_lastMatch_none_none (backend f : String)
    (l : List RegEntry) (h : lastMatch backend f l = none) :
    selectFor backend f l none = (firstDefault f l).map selectedVal := by
  rw [selectFor.eq_def, h]

theorem selectFor_congr (backend f : String) (l₁ l₂ : List RegEntry)
    (fb : Option (SymbolicWrapperClass × Bool))
    (h₁ : lastMatch backend f l₁ = lastMatch backend f l₂)
    (h₂ : firstDefault f l₁ = firstDefault f l₂) :
    selectFor backend f l₁ fb = selectFor backend f l₂ fb := by
  simp only [selectFor.eq_def]
  rw [h₁, h₂]

/-- Full characterisation of the selection loop: after folding `stepValid`
over the registry, the entry stored for a function name `f` is the most
recent backend-specific match; failing that, whatever the accumulator already
held; failing that, the earliest `'default'` registration. -/
theorem dictLookup_foldl_stepValid (backend f : String) :
    ∀ (l : List RegEntry) (acc : ValidDict),
    dictLookup (l.foldl (stepValid backend) acc) f =
      selectFor backend f l (dictLookup acc f) := by
  intro l
  induction l with
  | nil =>
    intro acc
    cases hfb : dictLookup acc f <;>
      simp [selectFor, lastMatch, firstDefault, hfb]
  | cons e rest ih =>
    intro acc
    rw [List.foldl_cons, ih]
    cases hsplit : splitModuleName e.1 with
    | none =>
      have hstep : stepValid backend acc e = acc := by
        simp [stepValid, hsplit]
      have hm : matchesFor backend f e = false := by
        simp [matchesFor, hsplit]
      have hd : defaultFor f e = false := by
        simp [defaultFor, hsplit]
      rw [hstep]
      exact (selectFor_congr backend f rest (e :: rest) _
        (lastMatch_cons_not_match backend f e rest hm).symm
        (firstDefault_cons_not_default f e rest hd).symm)
    | some t =>
      obtain ⟨fn, sb, py⟩ := t
      by_cases hfn : fn = f
      · subst hfn
        by_cases hsb : sb = backend
        · -- a backend-specific match: always overwrites
          have hcond : sb = backend ∨
              (sb = "default" ∧ ¬ dictContains acc fn = true) := Or.inl hsb
          have hstep : stepValid backend acc e =
              dictInsert acc fn (e.2, decide (py = "True")) := by
            simp only [stepValid, hsplit]
            rw [if_pos hcond]
          have hm : matchesFor backend fn e = true := by
            simp [matchesFor, hsplit, hsb]
          have hval : (e.2, decide (py = "True")) = selectedVal e := by
            simp [selectedVal, pyFlagOf, hsplit]
          rw [hstep, dictLookup_dictInsert_self, hval]
          cases hlm : lastMatch backend fn rest with
          | some e' =>
            rw [selectFor_of_lastMatch_some backend fn rest _ e' hlm,
              selectFor_of_lastMatch_some backend fn (e :: rest) _ e'
                (lastMatch_cons_some backend fn e e' rest hlm)]
          | none =>
            have hcons : lastMatch backend fn (e :: rest) = some e := by
              rw [lastMatch_cons_none backend fn e rest hlm, if_pos hm]
            rw [selectFor_of_lastMatch_none_fb backend fn rest _ hlm,
              selectFor_of_lastMatch_some backend fn (e :: rest) _ e hcons]
        · have hm : matchesFor backend fn e = false := by
            simp [matchesFor, hsplit, hsb]
          by_cases hsd : sb = "default"
          · have hd : defaultFor fn e = true := by
              simp [defaultFor, hsplit, hsd]
            cases hc : dictContains acc fn with
            | true =>
              -- key already present: a later default never overwrites
              have hcond : ¬ (sb = backend ∨
                  (sb = "default" ∧ ¬ dictContains acc fn = true)) := by
                simp [hsb, hc]
              have hstep : stepValid backend acc e = acc := by
                simp only [stepValid, hsplit]
                rw [if_neg hcond]
              obtain ⟨v, hv⟩ : ∃ v, dictLookup acc fn = some v := by
                have := dictContains_eq_isSome acc fn
                rw [hc] at this
                exact Option.isSome_iff_exists.mp this.symm
              rw [hstep, hv]
              cases hlm : lastMatch backend fn rest with
              | some e' =>
                rw [selectFor_of_lastMatch_some backend fn rest _ e' hlm,
                  selectFor_of_lastMatch_some backend fn (e :: rest) _ e'
                    (lastMatch_cons_some backend fn e e' rest hlm)]
              | none =>
                have hcons : lastMatch backend fn (e :: rest) = none := by
                  rw [lastMatch_cons_not_match backend fn e rest hm, hlm]
                rw [selectFor_of_lastMatch_none_fb backend fn rest _ hlm,
                  selectFor_of_lastMatch_none_fb backend fn (e :: rest) _ hcons]
            | false =>
              -- first default for a fresh key: it is stored
              have hcond : sb = backend ∨
                  (sb = "default" ∧ ¬ dictContains acc fn = true) := by
                simp [hsd, hc]
              have hstep : stepValid backend acc e =
                  dictInsert acc fn (e.2, decide (py = "True")) := by
                simp only [stepValid, hsplit]
                rw [if_pos hcond]
              have hval : (e.2, decide (py = "True")) = selectedVal e := by
                simp [selectedVal, pyFlagOf, hsplit]
              have hacc : dictLookup acc fn = none := by
                have := dictContains_eq_isSome acc fn
                rw [hc] at this
                cases hl : dictLookup acc fn with
                | none => rfl
                | some v => rw [hl] at this; simp at this
              rw [hstep, dictLookup_dictInsert_self, hval, hacc]
              cases hlm : lastMatch backend fn rest with
              | some e' =>
                rw [selectFor_of_lastMatch_some backend fn rest _ e' hlm,
                  selectFor_of_lastMatch_some backend fn (e :: rest) _ e'
                    (lastMatch_cons_some backend fn e e' rest hlm)]
              | none =>
                have hcons : lastMatch backend fn (e :: rest) = none := by
                  rw [lastMatch_cons_not_match backend fn e rest hm, hlm]
                rw [selectFor_of_lastMatch_none_fb backend fn rest _ hlm,
                  selectFor_of_lastMatch_none_none backend fn (e :: rest) hcons,
                  firstDefault_cons_default fn e rest hd]
                simp
          · -- backend neither requested nor default: the entry is skipped
            have hd : defaultFor fn e = false := by
              simp [defaultFor, hsplit, hsd]
            have hcond : ¬ (sb = backend ∨
                (sb = "default" ∧ ¬ dictContains acc fn = true)) := by
              simp [hsb, hsd]
            have hstep : stepValid backend acc e = acc := by
              simp only [stepValid, hsplit]
              rw [if_neg hcond]
            rw [hstep]
            exact (selectFor_congr backend fn rest (e :: rest) _
              (lastMatch_cons_not_match backend fn e rest hm).symm
              (firstDefault_cons_not_default fn e rest hd).symm)
      · -- an entry for a different function name never touches `f`
        have hm : matchesFor backend f e = false := by
          simp [matchesFor, hsplit, hfn]
        have hd : defaultFor f e = false := by
          simp [defaultFor, hsplit, hfn]
        have hstep : dictLookup (stepValid backend acc e) f =
            dictLookup acc f := by
          by_cases hcond : sb = backend ∨
              (sb = "default" ∧ ¬ dictContains acc fn = true)
          · have : stepValid backend acc e =
                dictInsert acc fn (e.2, decide (py = "True")) := by
              simp only [stepValid, hsplit]
              rw [if_pos hcond]
            rw [this, dictLookup_dictInsert_ne acc fn f _ hfn]
          · have : stepValid backend acc e = acc := by
              simp only [stepValid, hsplit]
              rw [if_neg hcond]
            rw [this]
        rw [hstep]
        exact (selectFor_congr backend f rest (e :: rest) _
          (lastMatch_cons_not_match backend f e rest hm).symm
          (firstDefault_cons_not_default f e rest hd).symm)

theorem lastMatch_mem (backend f : String) :
    ∀ (l : List RegEntry) (e : RegEntry),
    lastMatch backend f l = some e → e ∈ l ∧ matchesFor backend f e = true := by
  intro l
  induction l with
  | nil => intro e h; simp [lastMatch] at h
  | cons x rest ih =>
    intro e h
    cases hlm : lastMatch backend f rest with
    | some e' =>
      rw [lastMatch_cons_some backend f x e' rest hlm] at h
      obtain ⟨hmem, hm⟩ := ih e' hlm
      cases h
      exact ⟨List.mem_cons_of_mem x hmem, hm⟩
    | none =>
      rw [lastMatch_cons_none backend f x rest hlm] at h
      by_cases hm : matchesFor backend f x = true
      · rw [if_pos hm] at h
        cases h
        exact ⟨List.mem_cons_self x rest, hm⟩
      · rw [if_neg hm] at h
        cases h

theorem lastMatch_eq_none (backend f : String) :
    ∀ (l : List RegEntry),
    (∀ e ∈ l, matchesFor backend f e = false) → lastMatch backend f l = none := by
  intro l
  induction l with
  | nil => intro _; rfl
  | cons x rest ih =>
    intro h
    have hrest : lastMatch backend f rest = none :=
      ih (fun e he => h e (List.mem_cons_of_mem x he))
    rw [lastMatch_cons_none backend f x rest hrest,
      if_neg (by simp [h x (List.mem_cons_self x rest)])]

theorem lastMatch_isSome_of_mem (backend f : String) :
    ∀ (l : List RegEntry) (e : RegEntry), e ∈ l →
    matchesFor backend f e = true → ∃ e', lastMatch backend f l = some e' := by
  intro l
  induction l with
  | nil => intro e he; simp at he
  | cons x rest ih =>
    intro e he hm
    cases hlm : lastMatch backend f rest with
    | some e' => exact ⟨e', lastMatch_cons_some backend f x e' rest hlm⟩
    | none =>
      rcases List.mem_cons.mp he with hx | hrest
      · subst hx
        exact ⟨e, by rw [lastMatch_cons_none backend f e rest hlm, if_pos hm]⟩
      · obtain ⟨e', he'⟩ := ih e hrest hm
        rw [he'] at hlm
        cases hlm

theorem firstDefault_mem (f : String) :
    ∀ (l : List RegEntry) (e : RegEntry),
    firstDefault f l = some e → e ∈ l ∧ defaultFor f e = true := by
  intro l
  induction l with
  | nil => intro e h; simp [firstDefault] at h
  | cons x rest ih =>
    intro e h
    by_cases hd : defaultFor f x = true
    · rw [firstDefault_cons_default f x rest hd] at h
      cases h
      exact ⟨List.mem_cons_self x rest, hd⟩
    · rw [firstDefault_cons_not_default f x rest (by simpa using hd)] at h
      obtain ⟨hmem, hdef⟩ := ih e h
      exact ⟨List.mem_cons_of_mem x hmem, hdef⟩

theorem lastMatch_append (backend f : String) :
    ∀ (l₁ l₂ : List RegEntry),
    lastMatch backend f (l₁ ++ l₂) =
      (match lastMatch backend f l₂ with
       | some e => some e
       | none => lastMatch backend f l₁) := by
  intro l₁
  induction l₁ with
  | nil =>
    intro l₂
    cases h : lastMatch backend f l₂ <;> simp [lastMatch, h]
  | cons x rest ih =>
    intro l₂
    rw [List.cons_append]
    cases h : lastMatch backend f l₂ with
    | some e =>
      have := ih l₂
      rw [h] at this
      simp only [h]
      exact lastMatch_cons_some backend f x e (rest ++ l₂) this
    | none =>
      have hr := ih l₂
      rw [h] at hr
      simp only [h]
      cases hrest : lastMatch backend f rest with
      | some e' =>
        rw [hrest] at hr
        rw [lastMatch_cons_some backend f x e' (rest ++ l₂) hr,
          lastMatch_cons_some backend f x e' rest hrest]
      | none =>
        rw [hrest] at hr
        rw [lastMatch_cons_none backend f x (rest ++ l₂) hr,
          lastMatch_cons_none backend f x rest hrest]

/-! ### Distinctness of keys in `valid_symbolic_dict` -/

/-- The keys of a dict, in insertion order. -/
def dictKeys {α : Type} (d : List (String × α)) : List String :=
  d.map Prod.fst

theorem dictContains_eq_mem_dictKeys {α : Type} (d : List (String × α))
    (k : String) : dictContains d k = true ↔ k ∈ dictKeys d := by
  induction d with
  | nil => simp [dictContains, dictKeys]
  | cons p rest ih =>
    simp only [dictContains, dictKeys, List.any_cons, List.map, List.mem_cons,
      Bool.or_eq_true, decide_eq_true_eq] at ih ⊢
    constructor
    · rintro (h | h)
      · exact Or.inl h.symm
      · exact Or.inr (ih.mp h)
    · rintro (h | h)
      · exact Or.inl h.symm
      · exact Or.inr (ih.mpr h)

theorem dictKeys_dictInsert {α : Type} (d : List (String × α)) (k : String)
    (v : α) :
    dictKeys (dictInsert d k v) =
      (if dictContains d k then dictKeys d else dictKeys d ++ [k]) := by
  induction d with
  | nil => simp [dictInsert, dictKeys, dictContains]
  | cons p rest ih =>
    by_cases hp : p.1 = k
    · simp [dictInsert, dictKeys, dictContains, hp]
    · simp only [dictInsert, dictKeys, dictContains, List.any_cons, List.map]
      rw [if_neg hp]
      by_cases hc : dictContains rest k
      · simp only [dictKeys, dictContains] at ih hc
        simp [hp, hc, ih]
      · simp only [dictKeys, dictContains] at ih hc
        simp [hp, hc, ih]

theorem nodup_dictKeys_dictInsert {α : Type} (d : List (String × α))
    (k : String) (v : α) (h : (dictKeys d).Nodup) :
    (dictKeys (dictInsert d k v)).Nodup := by
  rw [dictKeys_dictInsert]
  by_cases hc : dictContains d k
  · rw [if_pos hc]; exact h
  · rw [if_neg hc]
    have hk : k ∉ dictKeys d := by
      intro hmem
      exact hc ((dictContains_eq_mem_dictKeys d k).mpr hmem)
    simp [List.nodup_append, h, hk]

theorem nodup_dictKeys_stepValid (backend : String) (acc : ValidDict)
    (e : RegEntry) (h : (dictKeys acc).Nodup) :
    (dictKeys (stepValid backend acc e)).Nodup := by
  cases hsplit : splitModuleName e.1 with
  | none => simpa [stepValid, hsplit] using h
  | some t =>
    obtain ⟨fn, sb, py⟩ := t
    by_cases hcond : sb = backend ∨
        (sb = "default" ∧ ¬ dictContains acc fn = true)
    · have : stepValid backend acc e =
          dictInsert acc fn (e.2, decide (py = "True")) := by
        simp only [stepValid, hsplit]
        rw [if_pos hcond]
      rw [this]
      exact nodup_dictKeys_dictInsert acc fn _ h
    · have : stepValid backend acc e = acc := by
        simp only [stepValid, hsplit]
        rw [if_neg hcond]
      rw [this]
      exact h

theorem nodup_dictKeys_foldl (backend : String) :
    ∀ (l : List RegEntry) (acc : ValidDict), (dictKeys acc).Nodup →
    (dictKeys (l.foldl (stepValid backend) acc)).Nodup := by
  intro l
  induction l with
  | nil => intro acc h; exact h
  | cons e rest ih =>
    intro acc h
    rw [List.foldl_cons]
    exact ih _ (nodup_dictKeys_stepValid backend acc e h)

theorem dictLookup_eq_some_of_mem {α : Type} :
    ∀ (d : List (String × α)) (k : String) (v : α),
    (dictKeys d).Nodup → (k, v) ∈ d → dictLookup d k = some v := by
  intro d
  induction d with
  | nil => intro k v _ hmem; simp at hmem
  | cons p rest ih =>
    intro k v hnd hmem
    obtain ⟨a, b⟩ := p
    have hnd' : a ∉ dictKeys rest ∧ (dictKeys rest).Nodup := by
      simpa [dictKeys, List.nodup_cons] using hnd
    rcases List.mem_cons.mp hmem with hp | hrest
    · rw [← hp]
      simp [dictLookup]
    · have hk : ¬ a = k := by
        intro hak
        apply hnd'.1
        rw [hak]
        exact List.mem_map.mpr ⟨(k, v), hrest, rfl⟩
      simp only [dictLookup]
      rw [if_neg hk]
      exact ih k v hnd'.2 hrest

theorem mem_of_dictLookup_eq_some {α : Type} :
    ∀ (d : List (String × α)) (k : String) (v : α),
    dictLookup d k = some v → (k, v) ∈ d := by
  intro d
  induction d with
  | nil => intro k v h; simp [dictLookup] at h
  | cons p rest ih =>
    intro k v h
    obtain ⟨a, b⟩ := p
    simp only [dictLookup] at h
    by_cases hp : a = k
    · rw [if_pos hp] at h
      injection h with hv
      subst hv
      subst hp
      exact List.mem_cons_self _ rest
    · rw [if_neg hp] at h
      exact List.mem_cons_of_mem (a, b) (ih k v h)

/-! ### Unpacking lemmas for the helper predicates -/

theorem matchesFor_true_iff (backend f : String) (e : RegEntry) :
    matchesFor backend f e = true ↔
      ∃ py, splitModuleName e.1 = some (f, backend, py) := by
  cases hs : splitModuleName e.1 with
  | none => simp [matchesFor, hs]
  | some t =>
    obtain ⟨fn, sb, py⟩ := t
    simp only [matchesFor, hs, decide_eq_true_eq]
    constructor
    · rintro ⟨h1, h2⟩
      subst h1
      subst h2
      exact ⟨py, rfl⟩
    · rintro ⟨py', hp⟩
      simp only [Option.some.injEq, Prod.mk.injEq] at hp
      exact ⟨hp.1, hp.2.1⟩

theorem defaultFor_true_iff (f : String) (e : RegEntry) :
    defaultFor f e = true ↔
      ∃ py, splitModuleName e.1 = some (f, "default", py) := by
  cases hs : splitModuleName e.1 with
  | none => simp [defaultFor, hs]
  | some t =>
    obtain ⟨fn, sb, py⟩ := t
    simp only [defaultFor, hs, decide_eq_true_eq]
    constructor
    · rintro ⟨h1, h2⟩
      subst h1
      subst h2
      exact ⟨py, rfl⟩
    · rintro ⟨py', hp⟩
      simp only [Option.some.injEq, Prod.mk.injEq] at hp
      exact ⟨hp.1, hp.2.1⟩

theorem matchesFor_eq_false (backend f : String) (e : RegEntry)
    (h : ∀ py, splitModuleName e.1 ≠ some (f, backend, py)) :
    matchesFor backend f e = false := by
  cases hm : matchesFor backend f e with
  | false => rfl
  | true =>
    obtain ⟨py, hp⟩ := (matchesFor_true_iff backend f e).mp hm
    exact absurd hp (h py)

theorem defaultFor_eq_false (f : String) (e : RegEntry)
    (h : ∀ py, splitModuleName e.1 ≠ some (f, "default", py)) :
    defaultFor f e = false := by
  cases hd : defaultFor f e with
  | false => rfl
  | true =>
    obtain ⟨py, hp⟩ := (defaultFor_true_iff f e).mp hd
    exact absurd hp (h py)

theorem selectedVal_of_split (e : RegEntry) (f sb py : String)
    (h : splitModuleName e.1 = some (f, sb, py)) :
    selectedVal e = (e.2, decide (py = "True")) := by
  simp [selectedVal, pyFlagOf, h]

theorem firstDefault_append_cons (f : String) (l₁ l₂ : List RegEntry)
    (e0 : RegEntry) (h1 : ∀ e ∈ l₁, defaultFor f e = false)
    (h0 : defaultFor f e0 = true) :
    firstDefault f (l₁ ++ e0 :: l₂) = some e0 := by
  induction l₁ with
  | nil => simpa [List.nil_append] using firstDefault_cons_default f e0 l₂ h0
  | cons x rest ih =>
    rw [List.cons_append,
      firstDefault_cons_not_default f x _ (h1 x (List.mem_cons_self x rest))]
    exact ih (fun e he => h1 e (List.mem_cons_of_mem x he))

/-! ### Build-phase lemmas -/

theorem set_symbolic_eq_map (env : PatchEnv) (cfg : Nat) (l : List RegEntry)
    (backend : String) (opset : Nat) (d : ValidDict)
    (h : findValidSymbolic l backend = .ok d) :
    set_symbolic env cfg l backend opset =
      .ok (d.map (buildSymbolicOne env cfg opset)) := by
  rw [set_symbolic, h]
  rfl

theorem set_symbolic_ok_elim (env : PatchEnv) (cfg : Nat) (l : List RegEntry)
    (backend : String) (opset : Nat) (acts : List BuildAction)
    (h : set_symbolic env cfg l backend opset = .ok acts) :
    ∃ d, findValidSymbolic l backend = .ok d ∧
      acts = d.map (buildSymbolicOne env cfg opset) := by
  cases hd : findValidSymbolic l backend with
  | error m =>
    rw [set_symbolic, hd] at h
    exact absurd h (by simp [bind, Except.bind])
  | ok d =>
    refine ⟨d, rfl, ?_⟩
    rw [set_symbolic_eq_map env cfg l backend opset d hd] at h
    injection h with h
    exact h.symm

theorem buildSymbolicOne_pytorch (env : PatchEnv) (cfg opset : Nat)
    (f : String) (c : SymbolicWrapperClass) :
    buildSymbolicOne env cfg opset (f, (c, true)) =
      .registerOp f (instantiateImpl c cfg) "" opset := rfl

theorem buildSymbolicOne_patch (env : PatchEnv) (cfg opset : Nat) (f : String)
    (c : SymbolicWrapperClass) (cls : Nat)
    (h1 : env.eval_with_import f = some cls)
    (h2 : env.isAutogradFunction cls = true) :
    buildSymbolicOne env cfg opset (f, (c, false)) =
      .patchClass f cls
        { instantiateImpl c cfg with
          origin_func := some (env.symbolicAttr cls) } := by
  simp [buildSymbolicOne, patchNonPytorch, h1, h2]

theorem buildSymbolicOne_warn_of_import_failure (env : PatchEnv)
    (cfg opset : Nat) (f : String) (c : SymbolicWrapperClass)
    (h1 : env.eval_with_import f = none) :
    buildSymbolicOne env cfg opset (f, (c, false)) =
      .warn ("Can not add symbolic for `" ++ f ++ "`") := by
  simp [buildSymbolicOne, patchNonPytorch, h1]

theorem buildSymbolicOne_warn_of_not_subclass (env : PatchEnv)
    (cfg opset : Nat) (f : String) (c : SymbolicWrapperClass) (cls : Nat)
    (h1 : env.eval_with_import f = some cls)
    (h2 : env.isAutogradFunction cls = false) :
    buildSymbolicOne env cfg opset (f, (c, false)) =
      .warn ("Can not add symbolic for `" ++ f ++ "`") := by
  simp [buildSymbolicOne, patchNonPytorch, h1, h2]

theorem buildSymbolicOne_registerOp_inv (env : PatchEnv) (cfg opset : Nat)
    (ent : String × (SymbolicWrapperClass × Bool)) (f : String)
    (impl : WrappedSymbolic) (dom : String) (op : Nat)
    (h : buildSymbolicOne env cfg opset ent = .registerOp f impl dom op) :
    f = ent.1 ∧ ent.2.2 = true ∧ impl = instantiateImpl ent.2.1 cfg ∧
      dom = "" ∧ op = opset := by
  obtain ⟨f', c, py⟩ := ent
  cases py with
  | true =>
    rw [buildSymbolicOne_pytorch] at h
    injection h with h1 h2 h3 h4
    exact ⟨h1.symm, rfl, h2.symm, h3.symm, h4.symm⟩
  | false =>
    cases h1 : env.eval_with_import f' with
    | none => rw [buildSymbolicOne_warn_of_import_failure env cfg opset f' c h1] at h; cases h
    | some cls =>
      cases h2 : env.isAutogradFunction cls with
      | false =>
        rw [buildSymbolicOne_warn_of_not_subclass env cfg opset f' c cls h1 h2] at h
        cases h
      | true =>
        rw [buildSymbolicOne_patch env cfg opset f' c cls h1 h2] at h
        cases h

theorem buildSymbolicOne_patchClass_inv (env : PatchEnv) (cfg opset : Nat)
    (ent : String × (SymbolicWrapperClass × Bool)) (f : String) (cls : Nat)
    (impl : WrappedSymbolic)
    (h : buildSymbolicOne env cfg opset ent = .patchClass f cls impl) :
    f = ent.1 ∧ ent.2.2 = false ∧ env.eval_with_import ent.1 = some cls ∧
      env.isAutogradFunction cls = true ∧
      impl = { instantiateImpl ent.2.1 cfg with
               origin_func := some (env.symbolicAttr cls) } := by
  obtain ⟨f', c, py⟩ := ent
  cases py with
  | true => rw [buildSymbolicOne_pytorch] at h; cases h
  | false =>
    cases h1 : env.eval_with_import f' with
    | none => rw [buildSymbolicOne_warn_of_import_failure env cfg opset f' c h1] at h; cases h
    | some cls' =>
      cases h2 : env.isAutogradFunction cls' with
      | false =>
        rw [buildSymbolicOne_warn_of_not_subclass env cfg opset f' c cls' h1 h2] at h
        cases h
      | true =>
        rw [buildSymbolicOne_patch env cfg opset f' c cls' h1 h2] at h
        injection h with hf hc hi
        subst hf
        subst hc
        exact ⟨rfl, rfl, rfl, h2, hi.symm⟩

theorem dictLookup_nil {α : Type} (k : String) :
    dictLookup ([] : List (String × α)) k = none := rfl

/-- Any value stored by the selection loop comes from a registration whose
backend component is the requested backend or `'default'`. -/
theorem selected_provenance (l : List RegEntry) (backend : String)
    (d : ValidDict) (h : findValidSymbolic l backend = .ok d) (f : String)
    (v : SymbolicWrapperClass × Bool) (hv : dictLookup d f = some v) :
    ∃ e ∈ l, ∃ sb py, splitModuleName e.1 = some (f, sb, py) ∧
      (sb = backend ∨ sb = "default") ∧ v = (e.2, decide (py = "True")) := by
  have hfold := findValidSymbolic_ok l backend d h
  have hchar := dictLookup_foldl_stepValid backend f l []
  rw [hfold, dictLookup_nil] at hchar
  rw [hchar] at hv
  cases hlm : lastMatch backend f l with
  | some e =>
    rw [selectFor_of_lastMatch_some backend f l _ e hlm] at hv
    injection hv with hv
    obtain ⟨hmem, hmatch⟩ := lastMatch_mem backend f l e hlm
    obtain ⟨py, hp⟩ := (matchesFor_true_iff backend f e).mp hmatch
    exact ⟨e, hmem, backend, py, hp, Or.inl rfl,
      by rw [← hv, selectedVal_of_split e f backend py hp]⟩
  | none =>
    rw [selectFor_of_lastMatch_none_none backend f l hlm] at hv
    cases hfd : firstDefault f l with
    | none => rw [hfd] at hv; cases hv
    | some e =>
      rw [hfd] at hv
      injection hv with hv
      obtain ⟨hmem, hdef⟩ := firstDefault_mem f l e hfd
      obtain ⟨py, hp⟩ := (defaultFor_true_iff f e).mp hdef
      exact ⟨e, hmem, "default", py, hp, Or.inr rfl,
        by rw [← hv, selectedVal_of_split e f "default" py hp]⟩

theorem mem_validDict_lookup (l : List RegEntry) (backend : String)
    (d : ValidDict) (h : findValidSymbolic l backend = .ok d)
    (ent : String × (SymbolicWrapperClass × Bool)) (hm : ent ∈ d) :
    dictLookup d ent.1 = some ent.2 := by
  have hfold := findValidSymbolic_ok l backend d h
  have hnd : (dictKeys d).Nodup := by
    rw [← hfold]
    exact nodup_dictKeys_foldl backend l [] (by simp [dictKeys])
  exact dictLookup_eq_some_of_mem d ent.1 ent.2 hnd hm

/-- C1: for every registry state and requested backend, if at least one
registration for a function name carries exactly the requested backend, the
selection loop of `set_symbolic` stores for that name a registration with
that backend — so a backend-specific registration beats any `'default'`
registration for the same name, regardless of registration order. -/
theorem set_symbolic_backend_specific_wins (l : List RegEntry)
    (backend f : String) (d : ValidDict)
    (h : findValidSymbolic l backend = .ok d)
    (hm : ∃ e ∈ l, ∃ py, splitModuleName e.1 = some (f, backend, py)) :
    ∃ e ∈ l, ∃ py, splitModuleName e.1 = some (f, backend, py) ∧
      dictLookup d f = some (e.2, decide (py = "True")) := by
  obtain ⟨e0, he0, py0, hp0⟩ := hm
  obtain ⟨e', he'⟩ := lastMatch_isSome_of_mem backend f l e0 he0
    ((matchesFor_true_iff backend f e0).mpr ⟨py0, hp0⟩)
  have hfold := findValidSymbolic_ok l backend d h
  have hchar := dictLookup_foldl_stepValid backend f l []
  rw [hfold] at hchar
  obtain ⟨hmem, hmatch⟩ := lastMatch_mem backend f l e' he'
  obtain ⟨py', hp'⟩ := (matchesFor_true_iff backend f e').mp hmatch
  refine ⟨e', hmem, py', hp', ?_⟩
  rw [hchar, selectFor_of_lastMatch_some backend f l _ e' he',
    selectedVal_of_split e' f backend py' hp']

theorem set_symbolic_backend_specific_wins_witness :
    ∃ e ∈ [(("f@default@False" : String),
        ({ symbolic := some 1 } : SymbolicWrapperClass)),
      ("f@tensorrt@False", { symbolic := some 2 })],
      ∃ py, splitModuleName e.1 = some ("f", "tensorrt", py) ∧
        dictLookup
          [("f", (({ symbolic := some 2 } : SymbolicWrapperClass), false))]
          "f" = some (e.2, decide (py = "True")) :=
  set_symbolic_backend_specific_wins
    [("f@default@False", { symbolic := some 1 }),
     ("f@tensorrt@False", { symbolic := some 2 })]
    "tensorrt" "f" [("f", ({ symbolic := some 2 }, false))] (by rfl)
    ⟨("f@tensorrt@False", { symbolic := some 2 }), by simp, "False", by rfl⟩

/-- C2: for every registry state and requested backend, if no registration
for a function name carries the requested backend but a `'default'`
registration exists for it, the selection loop stores the earliest-registered
`'default'` registration for that name (first default wins). -/
theorem set_symbolic_first_default_wins (backend f : String)
    (l₁ l₂ : List RegEntry) (e0 : RegEntry) (py : String) (d : ValidDict)
    (h : findValidSymbolic (l₁ ++ e0 :: l₂) backend = .ok d)
    (hnm : ∀ e ∈ l₁ ++ e0 :: l₂, matchesFor backend f e = false)
    (h0 : splitModuleName e0.1 = some (f, "default", py))
    (hearly : ∀ e ∈ l₁, defaultFor f e = false) :
    dictLookup d f = some (e0.2, decide (py = "True")) := by
  have hfold := findValidSymbolic_ok _ backend d h
  have hchar := dictLookup_foldl_stepValid backend f (l₁ ++ e0 :: l₂) []
  rw [hfold, dictLookup_nil] at hchar
  have hlm : lastMatch backend f (l₁ ++ e0 :: l₂) = none :=
    lastMatch_eq_none backend f _ hnm
  have hfd : firstDefault f (l₁ ++ e0 :: l₂) = some e0 :=
    firstDefault_append_cons f l₁ l₂ e0 hearly
      ((defaultFor_true_iff f e0).mpr ⟨py, h0⟩)
  rw [hchar, selectFor_of_lastMatch_none_none backend f _ hlm, hfd,
    Option.map_some', selectedVal_of_split e0 f "default" py h0]

theorem set_symbolic_first_default_wins_witness :
    dictLookup
      [("f", (({ symbolic := some 1 } : SymbolicWrapperClass), false)),
       ("g", (({ symbolic := some 3 } : SymbolicWrapperClass), false))]
      "f" =
      some (({ symbolic := some 1 } : SymbolicWrapperClass),
        decide (("False" : String) = "True")) :=
  set_symbolic_first_default_wins "tensorrt" "f" []
    [("f@default@True", { symbolic := some 2 }),
     ("g@tensorrt@False", { symbolic := some 3 })]
    ("f@default@False", { symbolic := some 1 }) "False"
    [("f", ({ symbolic := some 1 }, false)), ("g", ({ symbolic := some 3 }, false))]
    (by rfl) (by decide) (by rfl) (by decide)

/-- C9: when a registration for a function name carries exactly the requested
backend and no later registration does, it is the one stored: each later
matching registration overwrites the earlier entry in `valid_symbolic_dict`,
so with several same-backend registrations the most recent wins. -/
theorem set_symbolic_later_registration_overwrites (backend f : String)
    (l₁ l₂ : List RegEntry) (e1 : RegEntry) (py : String) (d : ValidDict)
    (h : findValidSymbolic (l₁ ++ e1 :: l₂) backend = .ok d)
    (h1 : splitModuleName e1.1 = some (f, backend, py))
    (hlate : ∀ e ∈ l₂, matchesFor backend f e = false) :
    dictLookup d f = some (e1.2, decide (py = "True")) := by
  have hfold := findValidSymbolic_ok _ backend d h
  have hchar := dictLookup_foldl_stepValid backend f (l₁ ++ e1 :: l₂) []
  rw [hfold, dictLookup_nil] at hchar
  have hl2 : lastMatch backend f l₂ = none := lastMatch_eq_none backend f l₂ hlate
  have hm1 : matchesFor backend f e1 = true :=
    (matchesFor_true_iff backend f e1).mpr ⟨py, h1⟩
  have hcons : lastMatch backend f (e1 :: l₂) = some e1 := by
    rw [lastMatch_cons_none backend f e1 l₂ hl2, if_pos hm1]
  have hlm : lastMatch backend f (l₁ ++ e1 :: l₂) = some e1 := by
    rw [lastMatch_append backend f l₁ (e1 :: l₂), hcons]
  rw [hchar, selectFor_of_lastMatch_some backend f _ _ e1 hlm,
    selectedVal_of_split e1 f backend py h1]

theorem set_symbolic_later_registration_overwrites_witness :
    dictLookup
      [("f", (({ symbolic := some 2 } : SymbolicWrapperClass), true))] "f" =
      some (({ symbolic := some 2 } : SymbolicWrapperClass),
        decide (("True" : String) = "True")) :=
  set_symbolic_later_registration_overwrites "tensorrt" "f"
    [("f@tensorrt@False", { symbolic := some 1 })] []
    ("f@tensorrt@True", { symbolic := some 2 }) "True"
    [("f", ({ symbolic := some 2 }, true))]
    (by rfl) (by rfl) (by decide)

/-- C3: a registration whose backend component is neither the requested
backend nor `'default'` is never selected into `valid_symbolic_dict`, and is
never applied: every stored entry, and every `register_op` call or `symbolic`
assignment performed by `set_symbolic`, stems from a registration whose
backend component is the requested backend or `'default'`. -/
theorem set_symbolic_never_selects_foreign_backend (env : PatchEnv)
    (cfg : Nat) (l : List RegEntry) (backend : String) (opset : Nat)
    (d : ValidDict) (acts : List BuildAction)
    (h : findValidSymbolic l backend = .ok d)
    (hacts : set_symbolic env cfg l backend opset = .ok acts) :
    (∀ f v, dictLookup d f = some v → ∃ e ∈ l, ∃ sb py,
      splitModuleName e.1 = some (f, sb, py) ∧
      (sb = backend ∨ sb = "default") ∧ v = (e.2, decide (py = "True"))) ∧
    (∀ a ∈ acts, ∀ f impl dom op, a = .registerOp f impl dom op →
      ∃ e ∈ l, ∃ sb py, splitModuleName e.1 = some (f, sb, py) ∧
        (sb = backend ∨ sb = "default")) ∧
    (∀ a ∈ acts, ∀ f cls impl, a = .patchClass f cls impl →
      ∃ e ∈ l, ∃ sb py, splitModuleName e.1 = some (f, sb, py) ∧
        (sb = backend ∨ sb = "default")) := by
  obtain ⟨d', hd', hmap⟩ := set_symbolic_ok_elim env cfg l backend opset acts hacts
  rw [h] at hd'
  injection hd' with hd'
  subst hd'
  refine ⟨fun f v hv => selected_provenance l backend d h f v hv, ?_, ?_⟩
  · intro a ha f impl dom op hae
    rw [hmap] at ha
    obtain ⟨ent, hent, hba⟩ := List.mem_map.mp ha
    rw [← hba] at hae
    obtain ⟨hf, _, _, _, _⟩ :=
      buildSymbolicOne_registerOp_inv env cfg opset ent f impl dom op hae
    subst hf
    obtain ⟨e, hmem, sb, py, hp, hsb, _⟩ :=
      selected_provenance l backend d h ent.1 ent.2
        (mem_validDict_lookup l backend d h ent hent)
    exact ⟨e, hmem, sb, py, hp, hsb⟩
  · intro a ha f cls impl hae
    rw [hmap] at ha
    obtain ⟨ent, hent, hba⟩ := List.mem_map.mp ha
    rw [← hba] at hae
    obtain ⟨hf, _, _, _, _⟩ :=
      buildSymbolicOne_patchClass_inv env cfg opset ent f cls impl hae
    subst hf
    obtain ⟨e, hmem, sb, py, hp, hsb, _⟩ :=
      selected_provenance l backend d h ent.1 ent.2
        (mem_validDict_lookup l backend d h ent hent)
    exact ⟨e, hmem, sb, py, hp, hsb⟩

theorem set_symbolic_never_selects_foreign_backend_witness :
    (∀ f v, dictLookup
        [("g", (({ symbolic := some 2 } : SymbolicWrapperClass), true))] f =
        some v →
      ∃ e ∈ [(("f@onnx@False" : String),
          ({ symbolic := some 1 } : SymbolicWrapperClass)),
        ("g@tensorrt@True", { symbolic := some 2 })], ∃ sb py,
        splitModuleName e.1 = some (f, sb, py) ∧
        (sb = "tensorrt" ∨ sb = "default") ∧
        v = (e.2, decide (py = "True"))) ∧
    (∀ a ∈ [BuildAction.registerOp "g" { symbolic := some 2, cfg := 0 } "" 11],
      ∀ f impl dom op, a = .registerOp f impl dom op →
      ∃ e ∈ [(("f@onnx@False" : String),
          ({ symbolic := some 1 } : SymbolicWrapperClass)),
        ("g@tensorrt@True", { symbolic := some 2 })], ∃ sb py,
        splitModuleName e.1 = some (f, sb, py) ∧
        (sb = "tensorrt" ∨ sb = "default")) ∧
    (∀ a ∈ [BuildAction.registerOp "g" { symbolic := some 2, cfg := 0 } "" 11],
      ∀ f cls impl, a = .patchClass f cls impl →
      ∃ e ∈ [(("f@onnx@False" : String),
          ({ symbolic := some 1 } : SymbolicWrapperClass)),
        ("g@tensorrt@True", { symbolic := some 2 })], ∃ sb py,
        splitModuleName e.1 = some (f, sb, py) ∧
        (sb = "tensorrt" ∨ sb = "default")) :=
  set_symbolic_never_selects_foreign_backend
    { eval_with_import := fun _ => none,
      isAutogradFunction := fun _ => false,
      symbolicAttr := fun _ => none }
    0
    [("f@onnx@False", { symbolic := some 1 }),
     ("g@tensorrt@True", { symbolic := some 2 })]
    "tensorrt" 11
    [("g", ({ symbolic := some 2 }, true))]
    [.registerOp "g" { symbolic := some 2, cfg := 0 } "" 11]
    (by rfl) (by rfl)

/-- C4: for a selected non-pytorch registration whose override cannot be
applied (the name does not import, or the imported object is not a
`torch.autograd.Function` subclass), `set_symbolic` emits a warning naming
that function, leaves it unpatched, still processes every other selected
registration, and raises nothing to its caller. -/
theorem set_symbolic_log_and_skip (env : PatchEnv) (cfg : Nat)
    (l : List RegEntry) (backend : String) (opset : Nat) (d : ValidDict)
    (f : String) (c : SymbolicWrapperClass)
    (h : findValidSymbolic l backend = .ok d)
    (hmem : (f, (c, false)) ∈ d)
    (hfail : env.eval_with_import f = none ∨
      ∃ cls, env.eval_with_import f = some cls ∧
        env.isAutogradFunction cls = false) :
    set_symbolic env cfg l backend opset =
      .ok (d.map (buildSymbolicOne env cfg opset)) ∧
    buildSymbolicOne env cfg opset (f, (c, false)) =
      .warn ("Can not add symbolic for `" ++ f ++ "`") ∧
    ∀ a ∈ d.map (buildSymbolicOne env cfg opset), ∀ cls impl,
      a ≠ .patchClass f cls impl := by
  have hwarn : buildSymbolicOne env cfg opset (f, (c, false)) =
      .warn ("Can not add symbolic for `" ++ f ++ "`") := by
    rcases hfail with h1 | ⟨cls, h1, h2⟩
    · exact buildSymbolicOne_warn_of_import_failure env cfg opset f c h1
    · exact buildSymbolicOne_warn_of_not_subclass env cfg opset f c cls h1 h2
  refine ⟨set_symbolic_eq_map env cfg l backend opset d h, hwarn, ?_⟩
  intro a ha cls impl hae
  subst hae
  obtain ⟨ent, hent, hba⟩ := List.mem_map.mp ha
  obtain ⟨e1, e2⟩ := ent
  obtain ⟨hf, hpy, himp, hsub, hi⟩ :=
    buildSymbolicOne_patchClass_inv env cfg opset (e1, e2) f cls impl hba
  simp only at hf hpy himp
  subst hf
  have hlook := mem_validDict_lookup l backend d h (f, e2) hent
  have hlook2 := mem_validDict_lookup l backend d h (f, (c, false)) hmem
  simp only at hlook hlook2
  rw [hlook] at hlook2
  injection hlook2 with hv
  rw [hv, hwarn] at hba
  cases hba

theorem set_symbolic_log_and_skip_witness :
    set_symbolic
      { eval_with_import := fun _ => none,
        isAutogradFunction := fun _ => false,
        symbolicAttr := fun _ => none } 0
      [("p.F@tensorrt@False", { symbolic := some 1 }),
       ("q@tensorrt@True", { symbolic := some 2 })] "tensorrt" 11 =
      .ok ([(("p.F" : String),
            (({ symbolic := some 1 } : SymbolicWrapperClass), false)),
           ("q", ({ symbolic := some 2 }, true))].map
        (buildSymbolicOne
          { eval_with_import := fun _ => none,
            isAutogradFunction := fun _ => false,
            symbolicAttr := fun _ => none } 0 11)) ∧
    buildSymbolicOne
      { eval_with_import := fun _ => none,
        isAutogradFunction := fun _ => false,
        symbolicAttr := fun _ => none } 0 11
      ("p.F", ({ symbolic := some 1 }, false)) =
      .warn ("Can not add symbolic for `" ++ "p.F" ++ "`") ∧
    ∀ a ∈ [(("p.F" : String),
          (({ symbolic := some 1 } : SymbolicWrapperClass), false)),
         ("q", ({ symbolic := some 2 }, true))].map
        (buildSymbolicOne
          { eval_with_import := fun _ => none,
            isAutogradFunction := fun _ => false,
            symbolicAttr := fun _ => none } 0 11),
      ∀ cls impl, a ≠ .patchClass "p.F" cls impl :=
  set_symbolic_log_and_skip
    { eval_with_import := fun _ => none,
      isAutogradFunction := fun _ => false,
      symbolicAttr := fun _ => none } 0
    [("p.F@tensorrt@False", { symbolic := some 1 }),
     ("q@tensorrt@True", { symbolic := some 2 })] "tensorrt" 11
    [("p.F", ({ symbolic := some 1 }, false)),
     ("q", ({ symbolic := some 2 }, true))]
    "p.F" { symbolic := some 1 }
    (by rfl) (by simp) (Or.inl rfl)

/-- C5 fails as stated for non-pytorch registrations: patching a
`torch.autograd.Function` subclass assigns its `symbolic` attribute without
reference to the opset, so two runs that differ only in the opset install the
very same override — nothing is registered "under" the opset value. -/
theorem set_symbolic_opset_ignored_for_nonpytorch_cex :
    set_symbolic
      { eval_with_import := fun s => if s = "p.F" then some 0 else none,
        isAutogradFunction := fun _ => true,
        symbolicAttr := fun _ => none } 0
      [("p.F@tensorrt@False", { symbolic := some 1 })] "tensorrt" 11 =
      .ok [.patchClass "p.F" 0
        { symbolic := some 1, cfg := 0, origin_func := some none }] ∧
    set_symbolic
      { eval_with_import := fun s => if s = "p.F" then some 0 else none,
        isAutogradFunction := fun _ => true,
        symbolicAttr := fun _ => none } 0
      [("p.F@tensorrt@False", { symbolic := some 1 })] "tensorrt" 13 =
      .ok [.patchClass "p.F" 0
        { symbolic := some 1, cfg := 0, origin_func := some none }] :=
  ⟨rfl, rfl⟩

/-- C5 (amended): the opset keying concerns the pytorch-builtin path — every
`register_op` call performed by `set_symbolic` passes exactly the opset it
was given (and the `''` ONNX domain), and `register_extra_symbolics`
forwards its opset to `set_symbolic` unchanged; the non-pytorch path assigns
the class's `symbolic` attribute, which does not involve the opset. -/
theorem set_symbolic_opset_keying (env : PatchEnv) (cfg : Nat)
    (l : List RegEntry) (backend : String) (opset : Nat)
    (acts : List BuildAction)
    (h : set_symbolic env cfg l backend opset = .ok acts) :
    (∀ f impl dom op, BuildAction.registerOp f impl dom op ∈ acts →
      op = opset ∧ dom = "") ∧
    (∀ mods cfg2, register_extra_symbolics env mods cfg2 backend opset =
      set_symbolic env cfg2 mods backend opset) := by
  obtain ⟨d, hd, hmap⟩ := set_symbolic_ok_elim env cfg l backend opset acts h
  refine ⟨?_, fun mods cfg2 => rfl⟩
  intro f impl dom op ha
  rw [hmap] at ha
  obtain ⟨ent, hent, hba⟩ := List.mem_map.mp ha
  obtain ⟨_, _, _, hdom, hop⟩ :=
    buildSymbolicOne_registerOp_inv env cfg opset ent f impl dom op hba
  exact ⟨hop, hdom⟩

theorem set_symbolic_opset_keying_witness :
    (∀ f impl dom op,
      BuildAction.registerOp f impl dom op ∈
        [BuildAction.registerOp "squeeze" { symbolic := some 4, cfg := 7 } "" 13] →
      op = 13 ∧ dom = "") ∧
    (∀ mods cfg2,
      register_extra_symbolics
        { eval_with_import := fun _ => none,
          isAutogradFunction := fun _ => false,
          symbolicAttr := fun _ => none } mods cfg2 "tensorrt" 13 =
      set_symbolic
        { eval_with_import := fun _ => none,
          isAutogradFunction := fun _ => false,
          symbolicAttr := fun _ => none } cfg2 mods "tensorrt" 13) :=
  set_symbolic_opset_keying
    { eval_with_import := fun _ => none,
      isAutogradFunction := fun _ => false,
      symbolicAttr := fun _ => none } 7
    [("squeeze@tensorrt@True", { symbolic := some 4 })] "tensorrt" 13
    [.registerOp "squeeze" { symbolic := some 4, cfg := 7 } "" 13]
    (by rfl)

/-- C6: the build loop dispatches on the `is_pytorch` flag decoded from the
registered module name: a `true` flag yields exactly the call
`register_op(func_name, symbolic_impl, '', opset)`, a `false` flag yields the
import-and-assign monkey-patch (or the warning when it fails), and nothing
else is done for a selected registration. -/
theorem set_symbolic_dispatch_on_flag (env : PatchEnv) (cfg : Nat)
    (l : List RegEntry) (backend : String) (opset : Nat) (d : ValidDict)
    (h : findValidSymbolic l backend = .ok d) :
    set_symbolic env cfg l backend opset =
      .ok (d.map (buildSymbolicOne env cfg opset)) ∧
    ∀ ent ∈ d,
      (ent.2.2 = true →
        buildSymbolicOne env cfg opset ent =
          .registerOp ent.1 (instantiateImpl ent.2.1 cfg) "" opset) ∧
      (ent.2.2 = false →
        (∃ cls, env.eval_with_import ent.1 = some cls ∧
          env.isAutogradFunction cls = true ∧
          buildSymbolicOne env cfg opset ent =
            .patchClass ent.1 cls
              { instantiateImpl ent.2.1 cfg with
                origin_func := some (env.symbolicAttr cls) }) ∨
        buildSymbolicOne env cfg opset ent =
          .warn ("Can not add symbolic for `" ++ ent.1 ++ "`")) := by
  refine ⟨set_symbolic_eq_map env cfg l backend opset d h, ?_⟩
  intro ent _
  obtain ⟨f, c, py⟩ := ent
  constructor
  · intro hpy
    simp only at hpy
    subst hpy
    exact buildSymbolicOne_pytorch env cfg opset f c
  · intro hpy
    simp only at hpy
    subst hpy
    cases h1 : env.eval_with_import f with
    | none =>
      exact Or.inr (buildSymbolicOne_warn_of_import_failure env cfg opset f c h1)
    | some cls =>
      cases h2 : env.isAutogradFunction cls with
      | true =>
        exact Or.inl ⟨cls, rfl, h2, buildSymbolicOne_patch env cfg opset f c cls h1 h2⟩
      | false =>
        exact Or.inr (buildSymbolicOne_warn_of_not_subclass env cfg opset f c cls h1 h2)

theorem set_symbolic_dispatch_on_flag_witness :
    set_symbolic
      { eval_with_import := fun s => if s = "p.F" then some 5 else none,
        isAutogradFunction := fun _ => true,
        symbolicAttr := fun n => if n = 5 then some 9 else none } 0
      [("sq@tensorrt@True", { symbolic := some 4 }),
       ("p.F@tensorrt@False", { symbolic := some 1 })] "tensorrt" 11 =
      .ok ([(("sq" : String),
            (({ symbolic := some 4 } : SymbolicWrapperClass), true)),
           ("p.F", ({ symbolic := some 1 }, false))].map
        (buildSymbolicOne
          { eval_with_import := fun s => if s = "p.F" then some 5 else none,
            isAutogradFunction := fun _ => true,
            symbolicAttr := fun n => if n = 5 then some 9 else none } 0 11)) ∧
    ∀ ent ∈ [(("sq" : String),
          (({ symbolic := some 4 } : SymbolicWrapperClass), true)),
        ("p.F", ({ symbolic := some 1 }, false))],
      (ent.2.2 = true →
        buildSymbolicOne
          { eval_with_import := fun s => if s = "p.F" then some 5 else none,
            isAutogradFunction := fun _ => true,
            symbolicAttr := fun n => if n = 5 then some 9 else none } 0 11 ent =
          .registerOp ent.1 (instantiateImpl ent.2.1 0) "" 11) ∧
      (ent.2.2 = false →
        (∃ cls, (if ent.1 = "p.F" then some 5 else none) = some cls ∧
          true = true ∧
          buildSymbolicOne
            { eval_with_import := fun s => if s = "p.F" then some 5 else none,
              isAutogradFunction := fun _ => true,
              symbolicAttr := fun n => if n = 5 then some 9 else none } 0 11 ent =
            .patchClass ent.1 cls
              { instantiateImpl ent.2.1 0 with
                origin_func := some (if cls = 5 then some 9 else none) }) ∨
        buildSymbolicOne
          { eval_with_import := fun s => if s = "p.F" then some 5 else none,
            isAutogradFunction := fun _ => true,
            symbolicAttr := fun n => if n = 5 then some 9 else none } 0 11 ent =
          .warn ("Can not add symbolic for `" ++ ent.1 ++ "`")) :=
  set_symbolic_dispatch_on_flag
    { eval_with_import := fun s => if s = "p.F" then some 5 else none,
      isAutogradFunction := fun _ => true,
      symbolicAttr := fun n => if n = 5 then some 9 else none } 0
    [("sq@tensorrt@True", { symbolic := some 4 }),
     ("p.F@tensorrt@False", { symbolic := some 1 })] "tensorrt" 11
    [("sq", ({ symbolic := some 4 }, true)),
     ("p.F", ({ symbolic := some 1 }, false))]
    (by rfl)

/-- C7: `register_extra_symbolics(cfg, backend, opset)` performs exactly the
registry build: it equals `set_symbolic` on `SYMBOLIC_REGISTER`'s module
dict with the same `cfg`, `backend` and `opset`, and its omitted arguments
default to `backend='default'` and `opset=11`. -/
theorem register_extra_symbolics_refines_set_symbolic (env : PatchEnv)
    (mods : List RegEntry) (cfg : Nat) (backend : String) (opset : Nat) :
    register_extra_symbolics env mods cfg backend opset =
      set_symbolic env cfg mods backend opset ∧
    register_extra_symbolics env mods cfg =
      set_symbolic env cfg mods "default" 11 :=
  ⟨rfl, rfl⟩

/-- C8: the decorator returned by
`register_symbolic(func_name, backend, is_pytorch, arg_descriptors)` hands
back the decorated implementation unchanged and appends to the registry
exactly one entry, registered under `'@'.join([func_name, backend,
str(is_pytorch)])` (given that this name is not yet registered — otherwise
`mmcv`'s `Registry.register_module` raises `KeyError`). -/
theorem register_symbolic_returns_impl_and_appends_one
    (mods : List RegEntry) (func_name backend : String) (is_pytorch : Bool)
    (arg_descriptors : Option (List String)) (symbolic_impl : Nat)
    (h : dictContains mods
      (String.intercalate "@" [func_name, backend, pyBoolStr is_pytorch]) =
      false) :
    register_symbolic mods func_name backend is_pytorch arg_descriptors
      symbolic_impl =
      .ok (symbolic_impl, mods ++
        [(String.intercalate "@" [func_name, backend, pyBoolStr is_pytorch],
          { func_name := func_name, backend := backend, is_pytorch := false,
            symbolic := some symbolic_impl,
            arg_descriptors := arg_descriptors })]) := by
  simp [register_symbolic, h]

theorem register_symbolic_returns_impl_and_appends_one_witness :
    register_symbolic [] "f" "tensorrt" true (some ["v"]) 7 =
      .ok (7, [] ++
        [(String.intercalate "@" ["f", "tensorrt", pyBoolStr true],
          { func_name := "f", backend := "tensorrt", is_pytorch := false,
            symbolic := some 7, arg_descriptors := some ["v"] })]) :=
  register_symbolic_returns_impl_and_appends_one [] "f" "tensorrt" true
    (some ["v"]) 7 (by decide)

/-- C10: whenever `set_symbolic` monkey-patches a class, the implementation
it installs carries in `origin_func` the class's previous `symbolic`
attribute — `getattr(func, 'symbolic', None)`, i.e. `none` when the class
had no such attribute — so the pre-patch hook stays recoverable. -/
theorem set_symbolic_records_origin_func (env : PatchEnv) (cfg : Nat)
    (l : List RegEntry) (backend : String) (opset : Nat)
    (acts : List BuildAction) (f : String) (cls : Nat)
    (impl : WrappedSymbolic)
    (h : set_symbolic env cfg l backend opset = .ok acts)
    (ha : BuildAction.patchClass f cls impl ∈ acts) :
    impl.origin_func = some (env.symbolicAttr cls) := by
  obtain ⟨d, hd, hmap⟩ := set_symbolic_ok_elim env cfg l backend opset acts h
  rw [hmap] at ha
  obtain ⟨ent, hent, hba⟩ := List.mem_map.mp ha
  obtain ⟨_, _, _, _, hi⟩ :=
    buildSymbolicOne_patchClass_inv env cfg opset ent f cls impl hba
  rw [hi]

theorem set_symbolic_records_origin_func_witness :
    ({ symbolic := some 1, cfg := 0, origin_func := some (some 9) } :
      WrappedSymbolic).origin_func =
      some ((fun n => if n = 5 then some 9 else none) 5) :=
  set_symbolic_records_origin_func
    { eval_with_import := fun s => if s = "p.F" then some 5 else none,
      isAutogradFunction := fun _ => true,
      symbolicAttr := fun n => if n = 5 then some 9 else none } 0
    [("p.F@tensorrt@False", { symbolic := some 1 })] "tensorrt" 11
    [.patchClass "p.F" 5 { symbolic := some 1, cfg := 0, origin_func := some (some 9) }]
    "p.F" 5 { symbolic := some 1, cfg := 0, origin_func := some (some 9) }
    (by rfl) (by simp)
